import Mathlib

/-!
Verification development for the go-avro/avro schema-resolution and
projection engine.  The Go sources embedded here are `schema.go` and
`datum_projector.go`; the binary codec primitives and the GenericRecord
container are not part of the source tree under verification, so they are
modelled from the specification document (each such definition carries a
doc comment starting with "Modelled from the spec:").

Go panics are modelled as `Except.error (.panicked msg)`; returned Go
errors live in the result types of the decode-time functions.  General
recursion over a pair of schemas is expressed with an explicit fuel
parameter; running out of fuel yields the artificial marker
`.outOfFuel`, which is distinct from every behaviour of the Go code, so
an `.ok`/`.panicked` result is always a faithful image of a real run.
-/

namespace Avro

/-- JSON values as Go's encoding/json decodes them into `interface{}`.
Numbers are restricted to integers, which covers every default value in
scope; Go represents JSON numbers as float64 and the code under
verification only inspects integral ones. -/
inductive Jv where
  | null
  | num (n : Int)
  | str (s : String)
  | jbool (b : Bool)
  | arr (items : List Jv)
  | obj (fields : List (String × Jv))

/-- Schema type constants, mirroring the `int` constants in schema.go. -/
inductive Ty where
  | record | enum | array | map | union | fixed
  | str | bytes | int | long | float | double | bool | null | recursive
deriving DecidableEq, Repr

instance : BEq Ty := ⟨fun a b => decide (a = b)⟩

/-- A record field: `SchemaField` from schema.go with the `Aliases`
member used by datum_projector.go (Name, Aliases, Type, Default); `Doc`
and custom properties are opaque pass-through and are not modelled.  A
`fdefault` of `none` is Go's nil `interface{}` default (absent or JSON
null). -/
structure SFieldG (σ : Type) where
  name : String
  aliases : List String
  ftype : σ
  fdefault : Option Jv

/-- Schema nodes, one constructor per `Schema` implementation in
schema.go.  `recursiveS` carries only the referenced record's name; the
projector only ever consults `Type()` and `GetName()` on it. -/
inductive Schema where
  | nullS | booleanS | intS | longS | floatS | doubleS | bytesS | stringS
  | fixedS (ns nm : String) (size : Nat)
  | enumS (ns nm : String) (symbols : List String)
  | arrayS (items : Schema)
  | mapS (values : Schema)
  | unionS (types : List Schema)
  | recordS (ns nm : String) (fields : List (SFieldG Schema))
  | recursiveS (nm : String)

abbrev SField := SFieldG Schema

/-- `Type()` of each schema node. -/
def Schema.ty : Schema → Ty
  | .nullS => .null
  | .booleanS => .bool
  | .intS => .int
  | .longS => .long
  | .floatS => .float
  | .doubleS => .double
  | .bytesS => .bytes
  | .stringS => .str
  | .fixedS _ _ _ => .fixed
  | .enumS _ _ _ => .enum
  | .arrayS _ => .array
  | .mapS _ => .map
  | .unionS _ => .union
  | .recordS _ _ _ => .record
  | .recursiveS _ => .recursive

/-- `GetName()` of each schema node: primitives and compounds answer
their type keyword, named schemas answer their bare name (not the full
name), a recursive reference answers the name of the record it points
to. -/
def Schema.getName : Schema → String
  | .nullS => "null"
  | .booleanS => "boolean"
  | .intS => "int"
  | .longS => "long"
  | .floatS => "float"
  | .doubleS => "double"
  | .bytesS => "bytes"
  | .stringS => "string"
  | .fixedS _ nm _ => nm
  | .enumS _ nm _ => nm
  | .arrayS _ => "array"
  | .mapS _ => "map"
  | .unionS _ => "union"
  | .recordS _ nm _ => nm
  | .recursiveS nm => nm

/-! ## Binary decoder primitives

The binary decoder implementation is not part of the source tree under
verification (only its interface and callers are), so the primitives are
modelled from the specification.  A decoder is a byte stream `List Nat`
consumed from the front; every read returns the unread remainder, also
on failure, mirroring a decoder whose position has advanced past the
bytes it consumed before failing. -/

/-- Result of a decoder primitive: the value and the remaining stream,
or a returned Go error together with the remaining stream. -/
inductive DecRes (α : Type) where
  | ok (val : α) (rest : List Nat)
  | fail (msg : String) (rest : List Nat)
deriving DecidableEq

/-- Modelled from the spec: the unsigned-varint loop shared by readInt
and readLong — 7 bits per byte, low group first, high bit means
continuation, rejecting varints longer than `allowed` bytes. -/
def readVarintAux : Nat → Nat → Nat → List Nat → DecRes Nat
  | 0, _, _, s => .fail "varint overflow" s
  | _ + 1, _, _, [] => .fail "unexpected EOF" []
  | allowed + 1, shift, acc, b :: rest =>
    let acc := acc + b % 128 * 2 ^ shift
    if b < 128 then .ok acc rest
    else readVarintAux allowed (shift + 7) acc rest

/-- Modelled from the spec: zig-zag decoding `(u >> 1) XOR -(u AND 1)`,
written out on unbounded integers. -/
def zigzagDecode (u : Nat) : Int :=
  if u % 2 = 0 then (u / 2 : Int) else -(u / 2 : Int) - 1

/-- Modelled from the spec: `readInt` decodes an unsigned varint of at
most five bytes and zig-zag decodes it to a signed 32-bit integer. -/
def readInt (s : List Nat) : DecRes Int :=
  match readVarintAux 5 0 0 s with
  | .ok u rest => .ok (zigzagDecode u) rest
  | .fail msg rest => .fail msg rest

/-- Modelled from the spec: `readLong` decodes an unsigned varint of at
most ten bytes and zig-zag decodes it to a signed 64-bit integer. -/
def readLong (s : List Nat) : DecRes Int :=
  match readVarintAux 10 0 0 s with
  | .ok u rest => .ok (zigzagDecode u) rest
  | .fail msg rest => .fail msg rest

/-- Modelled from the spec: `readBoolean` reads one byte that must be
0x00 or 0x01. -/
def readBoolean : List Nat → DecRes Bool
  | [] => .fail "unexpected EOF" []
  | b :: rest =>
    if b = 0 then .ok false rest
    else if b = 1 then .ok true rest
    else .fail "invalid bool" rest

/-- Modelled from the spec: `readFixedBytes n` consumes exactly n bytes,
used by the float and double readers, which keep the little-endian IEEE
bytes (their numeric interpretation is never needed here). -/
def readFixedBytes (n : Nat) (s : List Nat) : DecRes (List Nat) :=
  if s.length < n then .fail "unexpected EOF" s
  else .ok (s.take n) (s.drop n)

/-- Modelled from the spec: `readBytes` reads a long count, rejects a
negative count, then consumes that many bytes. -/
def readBytes (s : List Nat) : DecRes (List Nat) :=
  match readLong s with
  | .fail msg rest => .fail msg rest
  | .ok n rest =>
    if n < 0 then .fail "negative length" rest
    else readFixedBytes n.toNat rest

/-- Modelled from the spec: UTF-8 validity of a byte sequence, used by
`readString` ("the bytes must be valid UTF-8"). -/
def utf8Valid : List Nat → Bool
  | [] => true
  | b :: rest =>
    if b < 0x80 then utf8Valid rest
    else if 0xC2 ≤ b ∧ b ≤ 0xDF then
      match rest with
      | c :: r2 => 0x80 ≤ c && c ≤ 0xBF && utf8Valid r2
      | [] => false
    else if 0xE0 ≤ b ∧ b ≤ 0xEF then
      match rest with
      | c1 :: c2 :: r2 =>
        let lo1 := if b = 0xE0 then 0xA0 else 0x80
        let hi1 := if b = 0xED then 0x9F else 0xBF
        lo1 ≤ c1 && c1 ≤ hi1 && 0x80 ≤ c2 && c2 ≤ 0xBF && utf8Valid r2
      | _ => false
    else if 0xF0 ≤ b ∧ b ≤ 0xF4 then
      match rest with
      | c1 :: c2 :: c3 :: r2 =>
        let lo1 := if b = 0xF0 then 0x90 else 0x80
        let hi1 := if b = 0xF4 then 0x8F else 0xBF
        lo1 ≤ c1 && c1 ≤ hi1 && 0x80 ≤ c2 && c2 ≤ 0xBF &&
          0x80 ≤ c3 && c3 ≤ 0xBF && utf8Valid r2
      | _ => false
    else false

/-- Modelled from the spec: `readString` reads the same count-prefixed
byte run as `readBytes` and requires it to be valid UTF-8.  Go strings
are byte sequences, so the result stays a `List Nat`. -/
def readString (s : List Nat) : DecRes (List Nat) :=
  match readBytes s with
  | .fail msg rest => .fail msg rest
  | .ok bs rest =>
    if utf8Valid bs then .ok bs rest else .fail "invalid UTF-8" rest

/-! ## Binary encoder

Only the integer encoder is needed, to state round-trip claims; it is
modelled from the spec's wire-format section ("Int / Long: zig-zag
varint"). -/

/-- Modelled from the spec: zig-zag encoding of a signed integer to an
unsigned one. -/
def zigzagEncode (v : Int) : Nat :=
  if 0 ≤ v then 2 * v.toNat else 2 * (-v).toNat - 1

/-- Modelled from the spec: unsigned LEB128 varint encoding, low seven
bits first, high bit set on every byte but the last.  The structural
counter only bounds the recursion depth; `u + 1` steps always suffice
because the argument shrinks by a factor of 128 each step. -/
def varintEncodeAux : Nat → Nat → List Nat
  | 0, u => [u % 128]
  | steps + 1, u =>
    if u < 128 then [u] else (u % 128 + 128) :: varintEncodeAux steps (u / 128)

/-- Modelled from the spec: unsigned LEB128 varint encoding. -/
def varintEncode (u : Nat) : List Nat :=
  varintEncodeAux (u + 1) u

/-- Modelled from the spec: the Avro binary encoding of a long value. -/
def writeLong (v : Int) : List Nat :=
  varintEncode (zigzagEncode v)

/-- Modelled from the spec: the Avro binary encoding of an int value
(identical wire form to long). -/
def writeInt (v : Int) : List Nat :=
  varintEncode (zigzagEncode v)

example : writeLong 1 = [2] := by decide
example : writeLong (-1) = [1] := by decide
example : readLong (writeLong 12345) = .ok 12345 [] := by decide
example : readLong (writeLong (-12345)) = .ok (-12345) [] := by decide
example : readInt (writeInt 0) = .ok 0 [] := by decide

/-! ## Runtime values -/

/-- Symbolic float32 values: either raw IEEE bytes read off the wire or
the result of a numeric promotion.  Their numeric meaning is never
inspected by the code under verification. -/
inductive FloatVal where
  | ofBits (bytes : List Nat)
  | ofInt (i : Int)
  | ofLong (i : Int)

/-- Symbolic float64 values, as `FloatVal`. -/
inductive DoubleVal where
  | ofBits (bytes : List Nat)
  | ofInt (i : Int)
  | ofLong (i : Int)
  | ofFloat (f : FloatVal)

/-- A Go `interface{}` value as produced by the projector: decoded
datum values, the raw JSON defaults the record projector injects, and
the converted `[]int64` default used on the struct path.  The nil
interface is `nullV`. -/
inductive Value where
  | nullV
  | boolV (b : Bool)
  | intV (i : Int)
  | longV (i : Int)
  | floatV (f : FloatVal)
  | doubleV (d : DoubleVal)
  | bytesV (bs : List Nat)
  | strV (bs : List Nat)
  | recV (fields : List (String × Value))
  | jsonV (j : Jv)
  | longsV (l : List Int)

/-- Modelled from the spec: `GenericRecord.Set(name, value)` overwrites
an existing field entry or appends a new one. -/
def gset (flds : List (String × Value)) (n : String) (v : Value) :
    List (String × Value) :=
  match flds with
  | [] => [(n, v)]
  | (k, w) :: rest => if k = n then (n, v) :: rest else (k, w) :: gset rest n v

/-- Modelled from the spec: `GenericRecord.Get(name)`. -/
def gget (flds : List (String × Value)) (n : String) : Option Value :=
  match flds.find? (fun p => p.1 == n) with
  | some p => some p.2
  | none => none

/-! ## The projector compiler (`newProjection`, datum_projector.go) -/

/-- The precomputed `defaultValue` a reader field contributes to
`defaultIndexMap` (a `reflect.Value` in Go): the zero value
`reflect.ValueOf(nil)`, or a `[]int64` slice for the one implemented
array case. -/
inductive DVal where
  | invalid
  | longs (l : List Int)
  | ofJson (j : Jv)

/-- Compilation failure: a Go panic raised by `newProjection`, or the
artificial out-of-fuel marker of the embedding (never produced by any
real run given enough fuel). -/
inductive CErr where
  | panicked (msg : String)
  | outOfFuel
deriving DecidableEq, Repr

/-- Compiled projector trees: one constructor per `Unwrap`/`Project`
closure shape that `newProjection` can build.  `longFromLong` records
that the reader-long/writer-long projector reads with `Decoder.ReadInt`
(datum_projector.go line 118).  A record projector keeps, in writer
field order, the `(projectNameMap, projectIndexMap)` entries ("" for
deleted writer fields), plus `defaultUnwrapperMap` (raw defaults) and
`defaultIndexMap` (converted defaults) in insertion order.  A union
projector keeps one optional variant per writer member; `none` is the
nil `*Projection` left for a member the compiler skipped. -/
inductive Proj where
  | nullP
  | boolP
  | intP
  | longFromLong
  | longFromInt
  | floatFromFloat
  | floatFromInt
  | floatFromLong
  | doubleFromDouble
  | doubleFromInt
  | doubleFromLong
  | doubleFromFloat
  | bytesFromBytes
  | bytesFromString
  | stringFromString
  | stringFromBytes
  | recordP (entries : List (String × Proj))
      (defaultUnwrapper : List (String × Option Jv))
      (defaultIndex : List (String × DVal))
  | unionP (variants : List (Option Proj))

/-- Association-list update mirroring a Go map write (overwrite else
insert; insertion order is kept, standing in for Go's unspecified map
iteration order, on which no verified claim depends). -/
def aset {α : Type} (m : List (String × α)) (k : String) (v : α) :
    List (String × α) :=
  match m with
  | [] => [(k, v)]
  | (k0, v0) :: rest => if k0 = k then (k, v) :: rest else (k0, v0) :: aset rest k v

/-- Association-list membership test mirroring `_, ok := m[k]`. -/
def ahas {α : Type} (m : List (String × α)) (k : String) : Bool :=
  m.any (fun p => p.1 == k)

/-- Association-list deletion mirroring `delete(m, k)`. -/
def adel {α : Type} (m : List (String × α)) (k : String) : List (String × α) :=
  m.filter (fun p => p.1 != k)

/-- Conversion of a raw reader-field default into the `reflect.Value`
stored in `defaultIndexMap` (datum_projector.go lines 242-265): only
`array<long>` defaults whose elements are JSON numbers are implemented;
every other array shape panics, and non-array types store
`reflect.ValueOf(default)`, which for a nil default is the invalid zero
value. -/
def convertDefault (t : Schema) (d : Option Jv) : Except CErr DVal :=
  match t with
  | .arrayS items =>
    match d with
    | some (.arr a) =>
      match a with
      | [] => pure .invalid
      | x :: _ =>
        match items with
        | .longS =>
          match x with
          | .num _ =>
            do
              let l ← a.mapM (fun e =>
                match e with
                | .num n => pure n
                | _ => Except.error (CErr.panicked "interface conversion: not float64"))
              pure (.longs l)
          | _ => .error (.panicked "not impelemented: default element kind")
        | _ => .error (.panicked "not impelemented: default array items")
    | _ => .error (.panicked "interface conversion: default is not a JSON array")
  | _ =>
    match d with
    | none => pure .invalid
    | some j => pure (.ofJson j)

/-- Second pass over the reader fields (datum_projector.go lines
238-270): a reader field already marked in `defaultIndexMap` by the
matching pass is deleted from it; an unmarked one stores its raw
default in `defaultUnwrapperMap` and its converted default in
`defaultIndexMap`. -/
def defaultsPass : List SField → List (String × Option Jv) →
    List (String × DVal) → Except CErr (List (String × Option Jv) × List (String × DVal))
  | [], uw, di => pure (uw, di)
  | rf :: rest, uw, di =>
    if ahas di rf.name then defaultsPass rest uw (adel di rf.name)
    else do
      let dv ← convertDefault rf.ftype rf.fdefault
      defaultsPass rest (aset uw rf.name rf.fdefault) (aset di rf.name dv)

/-- List traversal in `Except`, written out for easy unfolding in
proofs. -/
def mapC {α β : Type} (f : α → Except CErr β) : List α → Except CErr (List β)
  | [] => pure []
  | a :: as => do
    let b ← f a
    let bs ← mapC f as
    pure (b :: bs)

/-- The matching-pass marks of `defaultIndexMap`: every non-empty
projected name is inserted with the `reflect.ValueOf(nil)` sentinel, in
first-match order (datum_projector.go lines 218 and 228). -/
def matchedMarks (entries : List (String × Proj)) : List (String × DVal) :=
  entries.foldl (fun m e => if e.1 = "" then m else aset m e.1 .invalid) []

/-- The projector compiler `newProjection` (datum_projector.go lines
43-357).  The fuel argument only bounds recursion depth; Go panics are
`.error (.panicked _)`. -/
def newProjection : Nat → Schema → Schema → Except CErr Proj
  | 0, _, _ => .error .outOfFuel
  | fuel + 1, readerSchema, writerSchema =>
    match readerSchema, writerSchema with
    | r, .unionS wts =>
      match r with
      | .unionS _ => do
        let variants ← mapC (fun t => do
          pure (some (← newProjection fuel t t))) wts
        pure (.unionP variants)
      | _ =>
        if wts.any (fun t => t.ty == r.ty && t.getName == r.getName) then do
          let variants ← mapC (fun t =>
            if t.ty == r.ty then do
              pure (some (← newProjection fuel r t))
            else pure none) wts
          pure (.unionP variants)
        else .error (.panicked "writer Union does not match reader schema")
    | .unionS rts, w =>
      match rts.find? (fun t => t.ty == w.ty && t.getName == w.getName) with
      | some t => newProjection fuel t w
      | none => .error (.panicked "not Implemented type")
    | .nullS, w =>
      match w with
      | .nullS => pure .nullP
      | _ => .error (.panicked "impossible projection")
    | .booleanS, w =>
      match w with
      | .booleanS => pure .boolP
      | _ => .error (.panicked "impossible projection")
    | .intS, w =>
      match w with
      | .intS => pure .intP
      | _ => .error (.panicked "impossible projection")
    | .longS, w =>
      match w with
      | .longS => pure .longFromLong
      | .intS => pure .longFromInt
      | _ => .error (.panicked "impossible projection")
    | .floatS, w =>
      match w with
      | .floatS => pure .floatFromFloat
      | .intS => pure .floatFromInt
      | .longS => pure .floatFromLong
      | _ => .error (.panicked "impossible projection")
    | .doubleS, w =>
      match w with
      | .doubleS => pure .doubleFromDouble
      | .intS => pure .doubleFromInt
      | .longS => pure .doubleFromLong
      | .floatS => pure .doubleFromFloat
      | _ => .error (.panicked "impossible projection")
    | .bytesS, w =>
      match w with
      | .bytesS => pure .bytesFromBytes
      | .stringS => pure .bytesFromString
      | _ => .error (.panicked "impossible projection")
    | .stringS, w =>
      match w with
      | .stringS => pure .stringFromString
      | .bytesS => pure .stringFromBytes
      | _ => .error (.panicked "impossible projection")
    | .recordS _ _ rfields, w =>
      match w with
      | .recordS _ _ wfields => do
        let entries ← mapC (fun wf =>
          match rfields.find? (fun rf => rf.name == wf.name) with
          | some rf => do
            pure (rf.name, ← newProjection fuel rf.ftype wf.ftype)
          | none =>
            match rfields.find? (fun rf => rf.aliases.contains wf.name) with
            | some rf => do
              pure (rf.name, ← newProjection fuel rf.ftype wf.ftype)
            | none => do
              pure ("", ← newProjection fuel wf.ftype wf.ftype)) wfields
        let (uw, di) ← defaultsPass rfields [] (matchedMarks entries)
        pure (.recordP entries uw di)
      | _ => .error (.panicked "interface conversion: writer schema is not a record")
    | _, _ => .error (.panicked "not Implemented type")

/-- The per-writer-field matching step of the record case of
`newProjection` (datum_projector.go lines 214-237), as a standalone
function: match by name, then by alias, else compile the
writer-to-writer skip projector with the empty target name.  This is
definitionally the function mapped over the writer fields inside
`newProjection`. -/
def resolveWriterField (fuel : Nat) (rfields : List SField) (wf : SField) :
    Except CErr (String × Proj) :=
  match rfields.find? (fun rf => rf.name == wf.name) with
  | some rf => do
    pure (rf.name, ← newProjection fuel rf.ftype wf.ftype)
  | none =>
    match rfields.find? (fun rf => rf.aliases.contains wf.name) with
    | some rf => do
      pure (rf.name, ← newProjection fuel rf.ftype wf.ftype)
    | none => do
      pure ("", ← newProjection fuel wf.ftype wf.ftype)

/-! ## The projector executor: `Unwrap` (datum_projector.go)

`unwrapP` is the denotation of the compiled `Unwrap` closures.  Besides
the decoded value and the remaining stream it returns a ghost event
trace recording, for the record projector, the order in which writer
fields are consumed and target fields are written; the trace is pure
instrumentation and influences nothing. -/

/-- Ghost decode events: `read n` marks the start of decoding one
writer field (with its mapped reader name, "" for a deleted field),
`setW` a `record.Set` with a decoded writer value, `setD` a
`record.Set` performed by the default plan. -/
inductive Ev where
  | read (name : String)
  | setW (name : String) (v : Value)
  | setD (name : String)

/-- Result of running a projector: value, ghost events and remaining
stream; or a returned Go error with the remaining stream; or a Go
panic. -/
inductive RunRes (α : Type) where
  | ok (val : α) (events : List Ev) (rest : List Nat)
  | fail (msg : String) (rest : List Nat)
  | panicked (msg : String)

/-- The raw default injected by the record `Unwrap`
(`record.Set(d, defaultUnwrapperMap[d])`): Go's nil interface for an
absent default, the raw JSON value otherwise. -/
def defToValue : Option Jv → Value
  | none => .nullV
  | some j => .jsonV j

/-- The writer-field loop of the record `Unwrap` (datum_projector.go
lines 274-286): decode each writer field in order, and `Set` the mapped
reader field when the decoded value is non-nil and the field was not
deleted.  `child` is the evaluator for the per-field projectors. -/
def unwrapEntries (child : Proj → List Nat → RunRes Value) :
    List (String × Proj) → List (String × Value) → List Ev → List Nat →
    RunRes (List (String × Value))
  | [], record, evs, s => .ok record evs s
  | (name, p) :: rest, record, evs, s =>
    match child p s with
    | .fail msg r => .fail msg r
    | .panicked msg => .panicked msg
    | .ok v cevs s' =>
      if v matches .nullV then
        unwrapEntries child rest record (evs ++ .read name :: cevs) s'
      else if name = "" then
        unwrapEntries child rest record (evs ++ .read name :: cevs) s'
      else
        unwrapEntries child rest (gset record name v)
          (evs ++ .read name :: (cevs ++ [.setW name v])) s'

/-- `Unwrap` of a compiled projector (datum_projector.go lines 84-356
and `unionProjection`, lines 359-373).  The union projector reads the
writer tag with `ReadInt`, rejects an out-of-range tag with a returned
error, and calls the selected variant — a nil variant is a Go nil
dereference panic.  The record projector runs the writer-field loop and
then, when `defaultIndexMap` is non-empty, sets every
`defaultUnwrapperMap` entry. -/
def unwrapP : Nat → Proj → List Nat → RunRes Value
  | 0, _, _ => .fail "OUT OF FUEL" []
  | fuel + 1, p, s =>
    match p with
    | .nullP => .ok .nullV [] s
    | .boolP =>
      match readBoolean s with
      | .ok b r => .ok (.boolV b) [] r
      | .fail m r => .fail m r
    | .intP =>
      match readInt s with
      | .ok i r => .ok (.intV i) [] r
      | .fail m r => .fail m r
    | .longFromLong =>
      match readInt s with
      | .ok i r => .ok (.intV i) [] r
      | .fail m r => .fail m r
    | .longFromInt =>
      match readInt s with
      | .ok i r => .ok (.longV i) [] r
      | .fail m r => .fail m r
    | .floatFromFloat =>
      match readFixedBytes 4 s with
      | .ok bs r => .ok (.floatV (.ofBits bs)) [] r
      | .fail m r => .fail m r
    | .floatFromInt =>
      match readInt s with
      | .ok i r => .ok (.floatV (.ofInt i)) [] r
      | .fail m r => .fail m r
    | .floatFromLong =>
      match readLong s with
      | .ok i r => .ok (.floatV (.ofLong i)) [] r
      | .fail m r => .fail m r
    | .doubleFromDouble =>
      match readFixedBytes 8 s with
      | .ok bs r => .ok (.doubleV (.ofBits bs)) [] r
      | .fail m r => .fail m r
    | .doubleFromInt =>
      match readInt s with
      | .ok i r => .ok (.doubleV (.ofInt i)) [] r
      | .fail m r => .fail m r
    | .doubleFromLong =>
      match readLong s with
      | .ok i r => .ok (.doubleV (.ofLong i)) [] r
      | .fail m r => .fail m r
    | .doubleFromFloat =>
      match readFixedBytes 4 s with
      | .ok bs r => .ok (.doubleV (.ofFloat (.ofBits bs))) [] r
      | .fail m r => .fail m r
    | .bytesFromBytes =>
      match readBytes s with
      | .ok bs r => .ok (.bytesV bs) [] r
      | .fail m r => .fail m r
    | .bytesFromString =>
      match readString s with
      | .ok bs r => .ok (.bytesV bs) [] r
      | .fail m r => .fail m r
    | .stringFromString =>
      match readString s with
      | .ok bs r => .ok (.strV bs) [] r
      | .fail m r => .fail m r
    | .stringFromBytes =>
      match readBytes s with
      | .ok bs r => .ok (.strV bs) [] r
      | .fail m r => .fail m r
    | .recordP entries uw di =>
      match unwrapEntries (fun c s0 => unwrapP fuel c s0) entries [] [] s with
      | .fail m r => .fail m r
      | .panicked m => .panicked m
      | .ok record evs s' =>
        if di.isEmpty then .ok (.recV record) evs s'
        else
          .ok (.recV (uw.foldl (fun r d => gset r d.1 (defToValue d.2)) record))
            (evs ++ uw.map (fun d => .setD d.1)) s'
    | .unionP variants =>
      match readInt s with
      | .fail m r => .fail m r
      | .ok tag s' =>
        if tag < 0 ∨ variants.length ≤ tag then .fail "invalid union index" s'
        else
          match variants.get? tag.toNat with
          | some (some v) => unwrapP fuel v s'
          | some none =>
            .panicked "runtime error: invalid memory address or nil pointer dereference"
          | none => .panicked "unreachable: index checked"

/-! ## The projector executor: `Project` (datum_projector.go)

`projectP` is the denotation of the compiled `Project` closures,
running a projector against a caller-supplied target.  A target is a
`GenericRecord`, a statically-typed struct modelled by its named field
slots, or a primitive slot; pointer indirection and allocation
(`reflect.New`) are transparent. -/

/-- A projection target: a primitive slot, a `GenericRecord`, or a
statically-typed struct value with named field slots. -/
inductive Tgt where
  | prim (v : Option Value)
  | genRec (flds : List (String × Value))
  | structRec (fields : List (String × Tgt))

/-- `strings.Title` as applied to a schema field name (a single word):
uppercase the first character. -/
def titleCase (s : String) : String :=
  match s.toList with
  | [] => s
  | c :: rest => String.mk (c.toUpper :: rest)

/-- The two-step field lookup of the struct path:
`target.FieldByName(name)` and, when that field is not valid,
`target.FieldByName(strings.Title(name))` (datum_projector.go lines
325-328); answers the key of the field found, if any. -/
def findStructKey (tflds : List (String × Tgt)) (n : String) : Option String :=
  if ahas tflds n then some n
  else if ahas tflds (titleCase n) then some (titleCase n) else none

/-- Association-list read (`m[k]`); the struct-path counterpart of
taking the located `reflect.Value`. -/
def aget {α : Type} : List (String × α) → String → Option α
  | [], _ => none
  | (k0, v) :: rest, k => if k0 = k then some v else aget rest k

/-- The writer-field loop of the struct `Project` path
(datum_projector.go lines 323-337): a writer field whose mapped name
resolves to no struct field is decoded purely to advance the stream and
any returned decode error is discarded (a panic still propagates); a
resolved field is projected into, with errors propagated.
`childProject` and `childUnwrap` are the per-field evaluators. -/
def projectEntriesStruct (childProject : Proj → Tgt → List Nat → RunRes Tgt)
    (childUnwrap : Proj → List Nat → RunRes Value) :
    List (String × Proj) → List (String × Tgt) → List Nat →
    RunRes (List (String × Tgt))
  | [], tflds, s => .ok tflds [] s
  | (name, p) :: rest, tflds, s =>
    match findStructKey tflds name with
    | none =>
      match childUnwrap p s with
      | .ok _ _ s' => projectEntriesStruct childProject childUnwrap rest tflds s'
      | .fail _ s' => projectEntriesStruct childProject childUnwrap rest tflds s'
      | .panicked m => .panicked m
    | some k =>
      match aget tflds k with
      | none => .panicked "unreachable: key came from lookup"
      | some sub =>
        match childProject p sub s with
        | .fail m r => .fail m r
        | .panicked m => .panicked m
        | .ok sub' _ s' =>
          projectEntriesStruct childProject childUnwrap rest (aset tflds k sub') s'

/-- The default plan of the struct `Project` path (datum_projector.go
lines 338-348): for each `defaultIndexMap` entry whose name resolves to
a struct field, `field.Set(defaultIndexMap[d])`; setting the invalid
zero `reflect.Value` is a reflect panic. -/
def applyStructDefaults : List (String × DVal) → List (String × Tgt) →
    RunRes (List (String × Tgt))
  | [], tflds => .ok tflds [] []
  | (d, dv) :: rest, tflds =>
    match findStructKey tflds d with
    | none => applyStructDefaults rest tflds
    | some k =>
      match dv with
      | .invalid => .panicked "reflect: call of reflect.Value.Set on zero Value"
      | .longs l => applyStructDefaults rest (aset tflds k (.prim (some (.longsV l))))
      | .ofJson j => applyStructDefaults rest (aset tflds k (.prim (some (.jsonV j))))

/-- `Project` of a compiled projector against a target
(datum_projector.go lines 76-82, 295-351 and 374-384).  A primitive
projector unwraps one datum and `Set`s it into the target; setting a
nil interface value (the null projector's result) is a reflect panic on
the zero `reflect.Value`.  The record projector dispatches on the
target's shape; running its struct path against a non-struct target is
the `FieldByName` reflect panic.  The union projector reads the tag and
dispatches, panicking on a nil variant. -/
def projectP : Nat → Proj → Tgt → List Nat → RunRes Tgt
  | 0, _, _, _ => .fail "OUT OF FUEL" []
  | fuel + 1, p, tgt, s =>
    match p with
    | .recordP entries uw di =>
      match tgt with
      | .genRec flds =>
        match unwrapEntries (fun c s0 => unwrapP fuel c s0) entries flds [] s with
        | .fail m r => .fail m r
        | .panicked m => .panicked m
        | .ok record evs s' =>
          if di.isEmpty then .ok (.genRec record) evs s'
          else
            .ok (.genRec (uw.foldl (fun r d => gset r d.1 (defToValue d.2)) record))
              (evs ++ uw.map (fun d => .setD d.1)) s'
      | .structRec tflds =>
        match projectEntriesStruct (fun c t s0 => projectP fuel c t s0)
            (fun c s0 => unwrapP fuel c s0) entries tflds s with
        | .fail m r => .fail m r
        | .panicked m => .panicked m
        | .ok tflds' evs s' =>
          if di.isEmpty then .ok (.structRec tflds') evs s'
          else
            match applyStructDefaults di tflds' with
            | .fail m r => .fail m r
            | .panicked m => .panicked m
            | .ok tflds'' _ _ => .ok (.structRec tflds'') evs s'
      | .prim _ => .panicked "reflect: FieldByName of non-struct type"
    | .unionP variants =>
      match readInt s with
      | .fail m r => .fail m r
      | .ok tag s' =>
        if tag < 0 ∨ variants.length ≤ tag then .fail "invalid union index" s'
        else
          match variants.get? tag.toNat with
          | some (some v) => projectP fuel v tgt s'
          | some none =>
            .panicked "runtime error: invalid memory address or nil pointer dereference"
          | none => .panicked "unreachable: index checked"
    | prim =>
      match unwrapP fuel prim s with
      | .fail m r => .fail m r
      | .panicked m => .panicked m
      | .ok v _ s' =>
        match v with
        | .nullV => .panicked "reflect: call of reflect.Value.Set on zero Value"
        | _ =>
          match tgt with
          | .prim _ => .ok (.prim (some v)) [] s'
          | _ => .panicked "reflect.Set: value of wrong type"

example : newProjection 3 .longS .longS = .ok .longFromLong := rfl
example : newProjection 9 .booleanS (.unionS [.nullS, .booleanS]) =
    .ok (.unionP [none, some .boolP]) := rfl
example : unwrapP 9 (.unionP [none, some .boolP]) [0] =
    .panicked "runtime error: invalid memory address or nil pointer dereference" := rfl
example : unwrapP 9 (.unionP [none, some .boolP]) [2, 1] =
    .ok (.boolV true) [] [] := rfl

/-! ## The schema parser (schema.go)

Only the parsing pipeline reachable from `schemaByType` is embedded;
JSON text decoding happens upstream (`json.Unmarshal`), so parsing
starts from `Jv` values.  Properties and doc strings are opaque
pass-through and are not modelled; note that the parser in schema.go
does not populate field aliases (the projector-side claims construct
schemas directly). -/

/-- Parse failures: the returned errors of schema.go
(`ErrInvalidSchema`, `ErrInvalidFixedSize`, "Unknown type name",
"Schema field name missing") and the Go panics raised by failed type
assertions, plus the artificial out-of-fuel marker. -/
inductive ParseErr where
  | invalidSchema
  | invalidFixedSize
  | unknownType (n : String)
  | fieldNameMissing
  | panicked (msg : String)
  | outOfFuel

/-- The name registry threaded through parsing (`map[string]Schema`). -/
abbrev Registry := List (String × Schema)

/-- `getFullName` (schema.go lines 1410-1416). -/
def getFullName (name ns : String) : String :=
  if 0 < ns.length ∧ ¬name.contains '.' then ns ++ "." ++ name else name

/-- `addSchema` (schema.go lines 1398-1408): answer the already
registered schema for the name, else register and answer the given
one. -/
def addSchema (name : String) (schema : Schema) (reg : Registry) :
    Schema × Registry :=
  match aget reg name with
  | some sch => (sch, reg)
  | none => (schema, aset reg name schema)

/-- The optional string field read of `setOptionalField`: absent keys
leave the default, a present non-string value is a failed type
assertion (Go panic). -/
def optionalStringField (v : List (String × Jv)) (key dflt : String) :
    Except ParseErr String :=
  match aget v key with
  | none => pure dflt
  | some (.str s) => pure s
  | some _ => .error (.panicked "interface conversion: not a string")

/-- The required-name read `v[schemaNameField].(string)` of the named
type parsers, whose failure is a Go panic. -/
def requiredNameField (v : List (String × Jv)) : Except ParseErr String :=
  match aget v "name" with
  | some (.str s) => pure s
  | _ => .error (.panicked "interface conversion: name is not a string")

/-- `parseEnumSchema` (schema.go lines 1293-1305), sans properties. -/
def parseEnumSchema (v : List (String × Jv)) (reg : Registry) (ns : String) :
    Except ParseErr (Schema × Registry) := do
  let rawSymbols ←
    match aget v "symbols" with
    | some (.arr a) => pure a
    | _ => Except.error (ParseErr.panicked "interface conversion: symbols is not an array")
  let symbols ← rawSymbols.mapM (fun s =>
    match s with
    | .str s => pure s
    | _ => Except.error (ParseErr.panicked "interface conversion: symbol is not a string"))
  let name ← requiredNameField v
  let namespace0 ← optionalStringField v "namespace" ""
  let _doc ← optionalStringField v "doc" ""
  pure (addSchema (getFullName name ns) (.enumS namespace0 name symbols) reg)

/-- `parseFixedSchema` (schema.go lines 1307-1316). -/
def parseFixedSchema (v : List (String × Jv)) (reg : Registry) (ns : String) :
    Except ParseErr (Schema × Registry) := do
  let size ←
    match aget v "size" with
    | some (.num n) => pure n
    | _ => Except.error ParseErr.invalidFixedSize
  let name ← requiredNameField v
  let namespace0 ← optionalStringField v "namespace" ""
  pure (addSchema (getFullName name ns) (.fixedS namespace0 name size.toNat) reg)

/-- The schema parser `schemaByType` with `parseUnionSchema`,
`parseRecordSchema` and `parseSchemaField` (schema.go lines 1206-1390),
threading the registry.  The fuel bounds recursion depth only.  The
`map[string][]interface{}` case of `schemaByType` is unreachable from
`json.Unmarshal` output and is not modelled. -/
def schemaByType : Nat → Jv → Registry → String →
    Except ParseErr (Schema × Registry)
  | 0, _, _, _ => .error .outOfFuel
  | fuel + 1, j, reg, ns =>
    match j with
    | .null => pure (.nullS, reg)
    | .str v =>
      match v with
      | "null" => pure (.nullS, reg)
      | "boolean" => pure (.booleanS, reg)
      | "int" => pure (.intS, reg)
      | "long" => pure (.longS, reg)
      | "float" => pure (.floatS, reg)
      | "double" => pure (.doubleS, reg)
      | "bytes" => pure (.bytesS, reg)
      | "string" => pure (.stringS, reg)
      | _ =>
        let fullName := if v.contains '.' then v else getFullName v ns
        match aget reg fullName with
        | some schema => pure (schema, reg)
        | none => .error (.unknownType v)
    | .obj v =>
      match aget v "type" with
      | some (.str "null") => pure (.nullS, reg)
      | some (.str "boolean") => pure (.booleanS, reg)
      | some (.str "int") => pure (.intS, reg)
      | some (.str "long") => pure (.longS, reg)
      | some (.str "float") => pure (.floatS, reg)
      | some (.str "double") => pure (.doubleS, reg)
      | some (.str "bytes") => pure (.bytesS, reg)
      | some (.str "string") => pure (.stringS, reg)
      | some (.str "array") => do
        let (items, reg') ← schemaByType fuel ((aget v "items").getD .null) reg ns
        pure (.arrayS items, reg')
      | some (.str "map") => do
        let (values, reg') ← schemaByType fuel ((aget v "values").getD .null) reg ns
        pure (.mapS values, reg')
      | some (.str "enum") => parseEnumSchema v reg ns
      | some (.str "fixed") => parseFixedSchema v reg ns
      | some (.str "record") => do
        -- parseRecordSchema, schema.go lines 1330-1348
        let name ← requiredNameField v
        let namespace0 ← optionalStringField v "namespace" ""
        let ns' ← optionalStringField v "namespace" ns
        let _doc ← optionalStringField v "doc" ""
        let (_, reg0) := addSchema (getFullName name ns') (.recursiveS name) reg
        let rawFields ←
          match aget v "fields" with
          | some (.arr a) => pure a
          | _ => Except.error (ParseErr.panicked "interface conversion: fields is not an array")
        let (fields, reg') ← rawFields.foldlM
          (fun (acc : List SField × Registry) fj => do
            -- parseSchemaField, schema.go lines 1350-1390
            match fj with
            | .obj fv =>
              let fname ←
                match aget fv "name" with
                | some (.str s) => pure s
                | _ => Except.error ParseErr.fieldNameMissing
              let (ftype, reg'') ← schemaByType fuel ((aget fv "type").getD .null) acc.2 ns'
              let fdefault :=
                match aget fv "default" with
                | some .null => none
                | other => other
              pure (acc.1 ++ [⟨fname, [], ftype, fdefault⟩], reg'')
            | _ => Except.error ParseErr.invalidSchema)
          ([], reg0)
        pure (.recordS namespace0 name fields, reg')
      | other =>
        -- type references written as an object: recurse on the type value
        schemaByType fuel (other.getD .null) reg ns
    | .arr items => do
      -- parseUnionSchema, schema.go lines 1318-1328: parse every member
      -- in order; no nested-union or duplicate-member validation exists.
      let (types, reg') ← items.foldlM
        (fun (acc : List Schema × Registry) m => do
          let (t, reg'') ← schemaByType fuel m acc.2 ns
          pure (acc.1 ++ [t], reg''))
        ([], reg)
      pure (.unionS types, reg')
    | _ => .error .invalidSchema

/-- `parseUnionSchema` as called on a JSON array (schema.go lines
1318-1328). -/
def parseUnionSchema (fuel : Nat) (items : List Jv) (reg : Registry)
    (ns : String) : Except ParseErr (Schema × Registry) :=
  schemaByType (fuel + 1) (.arr items) reg ns

/-! ## Canonical form (schema.go `Canonical()` methods) -/

/-- The `CanonicalSchema` struct (schema.go lines 1458-1467): Name,
Type, Fields, Symbols, Items, Values, Size, Types, with Go zero values
for the unused members. -/
inductive CanForm where
  | mk (nm : String) (ctype : String) (fields : List (String × CanForm))
      (symbols : List String) (items : Option CanForm) (values : Option CanForm)
      (size : Nat) (memberTypes : List CanForm)

/-- Name component of a canonical form. -/
def CanForm.nm : CanForm → String
  | .mk v _ _ _ _ _ _ _ => v

/-- Type component of a canonical form. -/
def CanForm.ctype : CanForm → String
  | .mk _ v _ _ _ _ _ _ => v

/-- Values component of a canonical form. -/
def CanForm.values : CanForm → Option CanForm
  | .mk _ _ _ _ _ v _ _ => v

/-- Items component of a canonical form. -/
def CanForm.items : CanForm → Option CanForm
  | .mk _ _ _ _ v _ _ _ => v

/-- A primitive canonical node carrying only its type keyword. -/
def CanForm.prim (t : String) : CanForm :=
  .mk "" t [] [] none none 0 []

/-- `GetFullName` (schema.go lines 1153-1165). -/
def Schema.fullName : Schema → String
  | .recordS ns nm _ => getFullName nm ns
  | .enumS ns nm _ => getFullName nm ns
  | .fixedS ns nm _ => getFullName nm ns
  | s => s.getName

/-- The `Canonical()` methods of every schema node (schema.go).  The
map case reproduces schema.go lines 967-974, which label the node with
type "array".  A recursive reference delegates to the record it points
to, which the by-name reference cannot reach here; no verified claim
exercises it. -/
def canonical : Nat → Schema → Except String CanForm
  | 0, _ => .error "out of fuel"
  | fuel + 1, s =>
    match s with
    | .nullS => pure (.prim "null")
    | .booleanS => pure (.prim "boolean")
    | .intS => pure (.prim "int")
    | .longS => pure (.prim "long")
    | .floatS => pure (.prim "float")
    | .doubleS => pure (.prim "double")
    | .bytesS => pure (.prim "bytes")
    | .stringS => pure (.prim "string")
    | .fixedS ns nm size => pure (.mk (getFullName nm ns) "fixed" [] [] none none size [])
    | .enumS ns nm symbols => pure (.mk (getFullName nm ns) "enum" [] symbols none none 0 [])
    | .arrayS items => do
      let ic ← canonical fuel items
      pure (.mk "" "array" [] [] (some ic) none 0 [])
    | .mapS values => do
      let vc ← canonical fuel values
      pure (.mk "" "array" [] [] none (some vc) 0 [])
    | .unionS types => do
      let ct ← types.mapM (fun t => canonical fuel t)
      pure (.mk "" "union" [] [] none none 0 ct)
    | .recordS ns nm fields => do
      let cf ← fields.mapM (fun f => do
        let fc ← canonical fuel f.ftype
        pure (f.name, fc))
      pure (.mk (getFullName nm ns) "record" cf [] none none 0 [])
    | .recursiveS _ => .error "recursive reference: actual record not modelled"

/-! ## Spec-side definitions

These two definitions transcribe claim language rather than source code
and exist only to be compared with the source-derived definitions
above. -/

/-- Spec-side matching rule of claim C1: the reader field receiving a
writer field's value is the first reader field, in declaration order,
whose name equals the writer field's name; failing that, the first
reader field whose declared aliases contain the writer field's name; a
direct name match always wins over an alias match. -/
def specTargetField (rfields : List SField) (wname : String) : Option SField :=
  match rfields.find? (fun rf => rf.name == wname) with
  | some rf => some rf
  | none => rfields.find? (fun rf => rf.aliases.contains wname)

/-- Spec-side name delivered by the record projector for one writer
field: the matched reader field's name, or "" for a deleted field. -/
def specTargetName (rfields : List SField) (wname : String) : String :=
  match specTargetField rfields wname with
  | some rf => rf.name
  | none => ""

/-- The sequential writer-field phase of a record projection:
`FieldPhase fuel entries s evs s'` holds when decoding the writer
fields of `entries`, strictly in their list order starting from stream
`s`, succeeds, produces exactly the ghost events `evs`, and leaves the
stream at `s'`.  Each field contributes a block of `read name` followed
by its child events and, when the decoded value is non-nil and the
field is not deleted, the `setW` write. -/
inductive FieldPhase (fuel : Nat) :
    List (String × Proj) → List Nat → List Ev → List Nat → Prop where
  | nil : ∀ s, FieldPhase fuel [] s [] s
  | consSkip : ∀ name p rest s v cevs s1 evs s2,
      unwrapP fuel p s = .ok v cevs s1 →
      (v matches .nullV) ∨ name = "" →
      FieldPhase fuel rest s1 evs s2 →
      FieldPhase fuel ((name, p) :: rest) s (.read name :: (cevs ++ evs)) s2
  | consSet : ∀ name p rest s v cevs s1 evs s2,
      unwrapP fuel p s = .ok v cevs s1 →
      ¬ (v matches .nullV) →
      name ≠ "" →
      FieldPhase fuel rest s1 evs s2 →
      FieldPhase fuel ((name, p) :: rest) s
        (.read name :: (cevs ++ .setW name v :: evs)) s2

/-! ## Theorems for the verified claims -/

/-- C3: the claim states that for identical reader and writer Long
schemas the projector decodes a zig-zag varint of up to 10 bytes as a
64-bit value, so that decoding `encode(v, long)` yields `v` up to
i64::MAX.  The code compiles the reader-long/writer-long pair to a
projector that reads with `Decoder.ReadInt` (datum_projector.go line
118), so decoding the 10-byte encoding of i64::MAX fails with a varint
overflow after five bytes, while the spec's `readLong` would return the
value; the last two conjuncts record that the encoding itself
round-trips through `readLong` at both i64 extremes. -/
theorem longLong_projector_reads_int_not_long :
    newProjection 1 .longS .longS = .ok .longFromLong ∧
    unwrapP 1 .longFromLong (writeLong 9223372036854775807) =
      .fail "varint overflow" [255, 255, 255, 255, 1] ∧
    readLong (writeLong 9223372036854775807) = .ok 9223372036854775807 [] ∧
    readLong (writeLong (-9223372036854775808)) = .ok (-9223372036854775808) [] :=
  ⟨rfl, rfl, by decide, by decide⟩

/-- C2 counterexample: the claim states that `NewDatumProjector`
returns an `IncompatibleProjection` error to the caller and that
incompatibilities never surface as panics.  On the claim's own example
pair — reader `array<string>`, writer `array<int>` — the constructor
raises a Go panic ("not Implemented type", datum_projector.go line
354); no error value is returned (the constructor has no error
result). -/
theorem incompatible_array_pair_panics :
    newProjection 2 (.arrayS .stringS) (.arrayS .intS) =
      .error (.panicked "not Implemented type") := rfl

/-- C2 amended: compilation is eager and structural incompatibilities
are detected inside the constructor, but they surface as Go panics from
`newProjection` — "not Implemented type" for the unimplemented reader
kinds such as arrays, "writer Union does not match reader schema" for
a writer union with no member matching a non-union reader — not as a
returned `IncompatibleProjection` error. -/
theorem incompatible_projection_panics_in_constructor :
    newProjection 2 (.arrayS .stringS) (.arrayS .intS) =
      .error (.panicked "not Implemented type") ∧
    newProjection 2 .stringS (.unionS [.nullS, .intS]) =
      .error (.panicked "writer Union does not match reader schema") ∧
    newProjection 9 .intS .stringS =
      .error (.panicked "impossible projection") :=
  ⟨rfl, rfl, rfl⟩

/-- C4 counterexample: the claim states that for a writer union and a
non-union reader the compiler builds the fallback `(member, member)`
projector for every non-matching member, so any in-range branch tag is
consumed without panic.  For writer `["null","boolean"]` and reader
`boolean` the compiler leaves the null member's variant as a nil
projector (`none`), and decoding a datum carrying the in-range branch
tag 0 dereferences the nil projector — a Go panic — instead of
consuming the null datum. -/
theorem union_null_member_has_no_fallback :
    newProjection 9 .booleanS (.unionS [.nullS, .booleanS]) =
      .ok (.unionP [none, some .boolP]) ∧
    unwrapP 9 (.unionP [none, some .boolP]) [0] =
      .panicked "runtime error: invalid memory address or nil pointer dereference" :=
  ⟨rfl, rfl⟩

/-- C5 counterexample: the claim states that a reader field with no
writer counterpart and no default makes compilation fail with a
`MissingField` error.  For reader `{a:int}` (no default) against writer
`{b:int}` compilation succeeds — no `MissingField` failure exists in
the code — and the resulting projector is usable: decoding a writer
datum yields a record whose field "a" is set to the nil default. -/
theorem missing_default_compiles_and_decodes :
    newProjection 2
        (.recordS "" "R" [⟨"a", [], .intS, none⟩])
        (.recordS "" "W" [⟨"b", [], .intS, none⟩]) =
      .ok (.recordP [("", .intP)] [("a", none)] [("a", .invalid)]) ∧
    unwrapP 2 (.recordP [("", .intP)] [("a", none)] [("a", .invalid)]) (writeInt 7) =
      .ok (.recV [("a", .nullV)]) [.read "", .setD "a"] [] :=
  ⟨rfl, rfl⟩

/-- C7 counterexample: the claim states that a union whose member list
directly contains another union fails to parse (`BadUnion`), and that a
union with two members of the same type category and name also fails,
with no schema node returned.  `parseUnionSchema` (schema.go lines
1318-1328) performs no such validation: both inputs parse successfully
into `UnionSchema` nodes. -/
theorem union_validation_absent :
    parseUnionSchema 2 [.str "int", .str "int"] [] "" =
      .ok (.unionS [.intS, .intS], []) ∧
    parseUnionSchema 3 [.str "string", .arr [.str "null", .str "int"]] [] "" =
      .ok (.unionS [.stringS, .unionS [.nullS, .intS]], []) :=
  ⟨rfl, rfl⟩

/-- C7 amended: `parseUnionSchema` parses each member in order and
returns a `UnionSchema` node with no validation at all: a directly
nested union parses to a nested `UnionSchema` member, and two members
of the same type category and name are both kept, for any incoming
registry and namespace. -/
theorem parseUnionSchema_accepts_nested_and_duplicate :
    ∀ (reg : Registry) (ns : String),
      parseUnionSchema 2 [.str "int", .str "int"] reg ns =
        .ok (.unionS [.intS, .intS], reg) ∧
      parseUnionSchema 3 [.str "string", .arr [.str "null", .str "int"]] reg ns =
        .ok (.unionS [.stringS, .unionS [.nullS, .intS]], reg) :=
  fun _ _ => ⟨rfl, rfl⟩

/-- C8: the claim states that `MapSchema.Canonical()` produces a node
whose type key is "map" with its values entry equal to the canonical
form of the value schema.  The code (schema.go lines 967-974) fills the
`CanonicalSchema` with `Type: "array"` — the values entry is correct,
but the type label is the array keyword, contradicting the Avro Parsing
Canonical Form rules, the schema's own `MarshalJSON` ("map"), and the
sibling canonicalizer of this repository; map and array schemas with
equal element schemas therefore canonicalize identically. -/
theorem mapSchema_canonical_mislabels_type :
    ∀ fuel vs vc, canonical fuel vs = .ok vc →
      canonical (fuel + 1) (.mapS vs) =
        .ok (.mk "" "array" [] [] none (some vc) 0 []) ∧
      canonical (fuel + 1) (.arrayS vs) =
        .ok (.mk "" "array" [] [] (some vc) none 0 []) := by
  intro fuel vs vc h
  constructor <;> simp [canonical, h, Except.bind]

/-- C8 witness: the map-of-string schema evaluated concretely: its
canonical node is labelled "array". -/
theorem mapSchema_canonical_mislabels_type_witness :
    canonical 1 .stringS = .ok (.prim "string") ∧
    canonical 2 (.mapS .stringS) =
      .ok (.mk "" "array" [] [] none (some (.prim "string")) 0 []) :=
  ⟨rfl, (mapSchema_canonical_mislabels_type 1 .stringS (.prim "string") rfl).1⟩

/-- The record-against-record case of `newProjection`, re-expressed
through `resolveWriterField`; holds by definitional unfolding. -/
theorem newProjection_record_record (fuel : Nat) (rns rn : String)
    (rfields : List SField) (wns wn : String) (wfields : List SField) :
    newProjection (fuel + 1) (.recordS rns rn rfields) (.recordS wns wn wfields) =
      (do
        let entries ← mapC (resolveWriterField fuel rfields) wfields
        let (uw, di) ← defaultsPass rfields [] (matchedMarks entries)
        pure (.recordP entries uw di)) := rfl

/-- Successful `mapC` runs have the length of their input and are
pointwise successful runs of the mapped function. -/
theorem mapC_ok_nth {α β : Type} (f : α → Except CErr β) :
    ∀ (l : List α) (out : List β), mapC f l = .ok out →
      out.length = l.length ∧
      ∀ i a, l.get? i = some a → ∃ b, out.get? i = some b ∧ f a = .ok b := by
  intro l
  induction l with
  | nil =>
    intro out h
    cases h
    exact ⟨rfl, by intro i a h; cases i <;> cases h⟩
  | cons a as ih =>
    intro out h
    unfold mapC at h
    cases hfa : f a with
    | error e => rw [hfa] at h; cases h
    | ok b =>
      rw [hfa] at h
      cases hmc : mapC f as with
      | error e => rw [hmc] at h; cases h
      | ok bs =>
        rw [hmc] at h
        cases h
        obtain ⟨hlen, hnth⟩ := ih bs hmc
        refine ⟨by simp [hlen], ?_⟩
        intro i a0 hget
        cases i with
        | zero => cases hget; exact ⟨b, rfl, hfa⟩
        | succ j => exact hnth j a0 hget

/-- Inversion of a successful `Except` bind. -/
theorem bind_eq_ok {α β : Type} {m : Except CErr α} {f : α → Except CErr β}
    {b : β} : (m >>= f) = .ok b ↔ ∃ a, m = .ok a ∧ f a = .ok b := by
  cases m <;> simp [Bind.bind, Except.bind]

/-- A successful `resolveWriterField` run delivers exactly the
spec-side target name: the first reader field matching by name, else
the first matching by alias, else the empty deleted-field marker. -/
theorem resolveWriterField_name (fuel : Nat) (rfields : List SField)
    (wf : SField) (e : String × Proj) :
    resolveWriterField fuel rfields wf = .ok e →
    e.1 = specTargetName rfields wf.name := by
  intro h
  unfold resolveWriterField at h
  unfold specTargetName specTargetField
  split at h
  case h_1 rf hn =>
    rw [bind_eq_ok] at h
    obtain ⟨p, hp, he⟩ := h
    cases he
    rfl
  case h_2 hn =>
    split at h
    case h_1 rf ha =>
      rw [bind_eq_ok] at h
      obtain ⟨p, hp, he⟩ := h
      cases he
      rfl
    case h_2 ha =>
      rw [bind_eq_ok] at h
      obtain ⟨p, hp, he⟩ := h
      cases he
      rfl

/-- C1: for every pair of record schemas, the compiled record projector
has one entry per writer field, in writer order, and delivers each
writer field's decoded value to exactly the reader field chosen by the
spec-side rule `specTargetName`: the first reader field (in reader
declaration order) whose name equals the writer field's name, else the
first whose aliases contain it — so a direct name match always wins
over an alias match — else the value is discarded (empty marker). -/
theorem record_projector_target_names :
    ∀ fuel rns rn rfields wns wn wfields entries uw di,
      newProjection (fuel + 1) (.recordS rns rn rfields) (.recordS wns wn wfields) =
        .ok (.recordP entries uw di) →
      entries.length = wfields.length ∧
      ∀ i wf, wfields.get? i = some wf →
        ∃ e, entries.get? i = some e ∧ e.1 = specTargetName rfields wf.name := by
  intro fuel rns rn rfields wns wn wfields entries uw di h
  rw [newProjection_record_record] at h
  rw [bind_eq_ok] at h
  obtain ⟨entries0, hmc, h⟩ := h
  rw [bind_eq_ok] at h
  obtain ⟨pair, hdp, h⟩ := h
  obtain ⟨uw0, di0⟩ := pair
  simp only [pure, Except.pure, Except.ok.injEq, Proj.recordP.injEq] at h
  obtain ⟨he, _, _⟩ := h
  subst he
  obtain ⟨hlen, hnth⟩ := mapC_ok_nth _ wfields entries0 hmc
  refine ⟨hlen, ?_⟩
  intro i wf hw
  obtain ⟨e, he, hr⟩ := hnth i wf hw
  exact ⟨e, he, resolveWriterField_name fuel rfields wf e hr⟩

/-- C1 witness: a concrete pair where the reader offers both an
alias-only match for writer field "a" and a direct-name match for
writer field "b" that would also match an earlier field's alias; the
compiled names follow the spec rule, with the direct name beating the
alias. -/
theorem record_projector_target_names_witness :
    newProjection 2
        (.recordS "" "R" [⟨"x", ["a", "b"], .intS, none⟩, ⟨"b", [], .intS, none⟩])
        (.recordS "" "W" [⟨"a", [], .intS, none⟩, ⟨"b", [], .intS, none⟩,
          ⟨"c", [], .intS, none⟩]) =
      .ok (.recordP [("x", .intP), ("b", .intP), ("", .intP)] [] []) ∧
    (specTargetName [⟨"x", ["a", "b"], .intS, none⟩, ⟨"b", [], .intS, none⟩] "a" = "x" ∧
     specTargetName [⟨"x", ["a", "b"], .intS, none⟩, ⟨"b", [], .intS, none⟩] "b" = "b") ∧
    ([("x", Proj.intP), ("b", Proj.intP), ("", Proj.intP)].length = 3 ∧
      ∀ i wf,
        ([⟨"a", [], .intS, none⟩, ⟨"b", [], .intS, none⟩,
          ⟨"c", [], .intS, none⟩] : List SField).get? i = some wf →
        ∃ e, [("x", Proj.intP), ("b", Proj.intP), ("", Proj.intP)].get? i = some e ∧
          e.1 = specTargetName
            [⟨"x", ["a", "b"], .intS, none⟩, ⟨"b", [], .intS, none⟩] wf.name) :=
  ⟨rfl, ⟨rfl, rfl⟩,
    record_projector_target_names 1 "" "R"
      [⟨"x", ["a", "b"], .intS, none⟩, ⟨"b", [], .intS, none⟩] "" "W"
      [⟨"a", [], .intS, none⟩, ⟨"b", [], .intS, none⟩, ⟨"c", [], .intS, none⟩]
      [("x", .intP), ("b", .intP), ("", .intP)] [] [] rfl⟩

/-- The writer-union/non-union-reader case of `newProjection`
(datum_projector.go lines 53-66), re-expressed for a reader that is not
a union; holds by definitional unfolding for each non-union reader
constructor. -/
theorem newProjection_nonunion_union (fuel : Nat) (r : Schema)
    (wts : List Schema) (hne : r.ty ≠ .union) :
    newProjection (fuel + 1) r (.unionS wts) =
      (if wts.any (fun t => t.ty == r.ty && t.getName == r.getName) then do
        let variants ← mapC (fun t =>
          if t.ty == r.ty then do
            pure (some (← newProjection fuel r t))
          else pure none) wts
        pure (.unionP variants)
      else .error (.panicked "writer Union does not match reader schema")) := by
  cases r <;> first | rfl | exact absurd rfl hne

/-- C4 amended: when the writer schema is a union and the reader R is
not, a successful compilation builds one variant slot per writer
member, holding a child projector exactly for the members whose type
category equals R's (the full name is not consulted for the per-member
choice), and the nil projector (`none`) for every other member; at
decode time a datum whose in-range branch tag selects a nil variant
panics with a nil-pointer dereference instead of being consumed. -/
theorem union_writer_variant_structure :
    ∀ fuel r wts variants,
      r.ty ≠ .union →
      newProjection (fuel + 1) r (.unionS wts) = .ok (.unionP variants) →
      variants.length = wts.length ∧
      (∀ i t, wts.get? i = some t →
        ∃ v, variants.get? i = some v ∧ ((v.isSome : Prop) ↔ t.ty = r.ty)) ∧
      (∀ fuel2 tag s s', readInt s = .ok tag s' →
        ¬(tag < 0 ∨ (variants.length : Int) ≤ tag) →
        variants.get? tag.toNat = some none →
        unwrapP (fuel2 + 1) (.unionP variants) s =
          .panicked "runtime error: invalid memory address or nil pointer dereference") := by
  intro fuel r wts variants hne h
  rw [newProjection_nonunion_union fuel r wts hne] at h
  split at h
  case isFalse => cases h
  case isTrue hany =>
    rw [bind_eq_ok] at h
    obtain ⟨variants0, hmc, h⟩ := h
    simp only [pure, Except.pure, Except.ok.injEq, Proj.unionP.injEq] at h
    subst h
    obtain ⟨hlen, hnth⟩ := mapC_ok_nth _ wts variants0 hmc
    refine ⟨hlen, ?_, ?_⟩
    · intro i t ht
      obtain ⟨v, hv, hr⟩ := hnth i t ht
      refine ⟨v, hv, ?_⟩
      by_cases hty : t.ty = r.ty
      · simp only [hty, beq_self_eq_true, if_true] at hr
        rw [bind_eq_ok] at hr
        obtain ⟨p, hp, he⟩ := hr
        cases he
        simp [hty]
      · have : (t.ty == r.ty) = false := by
          simp [hty]
        rw [if_neg (by simp [this])] at hr
        cases hr
        simp [hty]
    · intro fuel2 tag s s' hread hbound hnil
      simp only [unwrapP, hread]
      rw [if_neg hbound]
      rw [List.get?_eq_getElem?] at hnil
      simp [hnil]

/-- C4 amended witness: the writer union `["null","boolean"]` with
reader `boolean`: the compiled variants are `[none, some boolP]` and
decoding the in-range branch tag 0 panics. -/
theorem union_writer_variant_structure_witness :
    unwrapP 9 (.unionP [none, some .boolP]) [0] =
      .panicked "runtime error: invalid memory address or nil pointer dereference" :=
  (union_writer_variant_structure 8 .booleanS [.nullS, .booleanS]
      [none, some .boolP] (by decide) rfl).2.2 8 0 [0] [] rfl (by decide) rfl

/-- Reading back the key just written by `aset`. -/
theorem aget_aset_self {α : Type} (m : List (String × α)) (k : String) (v : α) :
    aget (aset m k v) k = some v := by
  induction m with
  | nil => simp [aset, aget]
  | cons p rest ih =>
    obtain ⟨k0, v0⟩ := p
    by_cases hk : k0 = k
    · subst hk; simp [aset, aget]
    · simp [aset, aget, hk, ih]

/-- `aset` leaves other keys unchanged. -/
theorem aget_aset_ne {α : Type} (m : List (String × α)) (k k' : String) (v : α)
    (h : k' ≠ k) : aget (aset m k v) k' = aget m k' := by
  have hkk : ¬k = k' := fun e => h (Eq.symm e)
  induction m with
  | nil => simp [aset, aget, hkk]
  | cons p rest ih =>
    obtain ⟨k0, v0⟩ := p
    by_cases hk : k0 = k
    · subst hk
      simp [aset, aget, hkk]
    · by_cases h0 : k0 = k'
      · simp [aset, aget, hk, h0, h]
      · simp [aset, aget, hk, h0, ih]

/-- `adel` leaves other keys unchanged. -/
theorem aget_adel_ne {α : Type} (m : List (String × α)) (k k' : String)
    (h : k' ≠ k) : aget (adel m k) k' = aget m k' := by
  have hkk : ¬k = k' := fun e => h (Eq.symm e)
  induction m with
  | nil => simp [adel, aget]
  | cons p rest ih =>
    obtain ⟨k0, v0⟩ := p
    by_cases hk : k0 = k
    · subst hk
      simp [adel, aget, List.filter_cons, bne, hkk]
      exact ih
    · by_cases h0 : k0 = k'
      · simp [adel, aget, List.filter_cons, bne, hk, h0, h]
      · simp [adel, aget, List.filter_cons, bne, hk, h0]
        exact ih

/-- `ahas` is definedness of `aget`. -/
theorem ahas_eq_isSome {α : Type} (m : List (String × α)) (k : String) :
    ahas m k = (aget m k).isSome := by
  induction m with
  | nil => simp [ahas, aget]
  | cons p rest ih =>
    obtain ⟨k0, v0⟩ := p
    by_cases h0 : k0 = k
    · simp [ahas, aget, h0]
    · simp [ahas, aget, h0, ← ih]

/-- `defaultsPass` does not touch keys named by no processed field. -/
theorem defaultsPass_preserves :
    ∀ (rest : List SField) (uw : List (String × Option Jv))
      (di : List (String × DVal)) uw' di' (k : String),
      defaultsPass rest uw di = .ok (uw', di') →
      (∀ rf ∈ rest, rf.name ≠ k) →
      aget uw' k = aget uw k ∧ aget di' k = aget di k := by
  intro rest
  induction rest with
  | nil =>
    intro uw di uw' di' k h _
    cases h
    exact ⟨rfl, rfl⟩
  | cons rf tail ih =>
    intro uw di uw' di' k h hk
    have hrf : rf.name ≠ k := hk rf (by simp)
    have htail : ∀ rf2 ∈ tail, rf2.name ≠ k := fun rf2 h2 => hk rf2 (by simp [h2])
    unfold defaultsPass at h
    split at h
    · obtain ⟨h1, h2⟩ := ih _ _ _ _ _ h htail
      exact ⟨h1, by rw [h2, aget_adel_ne _ _ _ (fun e => hrf e.symm)]⟩
    · rw [bind_eq_ok] at h
      obtain ⟨dv, hdv, h⟩ := h
      obtain ⟨h1, h2⟩ := ih _ _ _ _ _ h htail
      constructor
      · rw [h1, aget_aset_ne _ _ _ _ (fun e => hrf e.symm)]
      · rw [h2, aget_aset_ne _ _ _ _ (fun e => hrf e.symm)]

/-- A key in the matching marks always comes from a non-deleted
entry. -/
theorem ahas_matchedMarks :
    ∀ (entries : List (String × Proj)) (init : List (String × DVal)) (k : String),
      ahas (entries.foldl
        (fun m e => if e.1 = "" then m else aset m e.1 .invalid) init) k = true →
      ahas init k = true ∨ ∃ e ∈ entries, e.1 = k := by
  intro entries
  induction entries with
  | nil => intro init k h; exact .inl h
  | cons e rest ih =>
    intro init k h
    simp only [List.foldl_cons] at h
    rcases ih _ k h with h1 | h2
    · by_cases he : e.1 = ""
      · rw [if_pos he] at h1
        exact .inl h1
      · rw [if_neg he] at h1
        by_cases hek : e.1 = k
        · exact .inr ⟨e, by simp, hek⟩
        · rw [ahas_eq_isSome, aget_aset_ne _ _ _ _ (fun x => hek x.symm),
            ← ahas_eq_isSome] at h1
          exact .inl h1
    · obtain ⟨e2, he2, hk2⟩ := h2
      exact .inr ⟨e2, by simp [he2], hk2⟩

/-- Conversion of an absent default never yields a usable value: on
success it is the invalid zero `reflect.Value` (array-typed fields
panic instead). -/
theorem convertDefault_none (t : Schema) (dv : DVal) :
    convertDefault t none = .ok dv → dv = .invalid := by
  cases t <;> intro h <;> first | (cases h; rfl) | cases h

/-- The defaults pass records every unmatched reader field: from a
state not containing the field's name, a field whose remaining
namesakes are only itself ends with its raw default in
`defaultUnwrapperMap` and its converted default in `defaultIndexMap`. -/
theorem defaultsPass_unmatched :
    ∀ (rfields : List SField) (uw0 : List (String × Option Jv))
      (di0 : List (String × DVal)) uw di (rf : SField),
      defaultsPass rfields uw0 di0 = .ok (uw, di) →
      rf ∈ rfields →
      (rfields.map SFieldG.name).Nodup →
      ahas di0 rf.name = false →
      aget uw rf.name = some rf.fdefault ∧
      ∃ dv, convertDefault rf.ftype rf.fdefault = .ok dv ∧
        aget di rf.name = some dv := by
  intro rfields
  induction rfields with
  | nil => intro _ _ _ _ rf _ hmem; cases hmem
  | cons rf0 tail ih =>
    intro uw0 di0 uw di rf h hmem hnod h0
    rw [List.map_cons] at hnod
    obtain ⟨hhead, hnod'⟩ := List.nodup_cons.mp hnod
    rcases List.mem_cons.mp hmem with he | htail
    · subst he
      unfold defaultsPass at h
      rw [h0] at h
      simp only [Bool.false_eq_true, if_false] at h
      rw [bind_eq_ok] at h
      obtain ⟨dv, hdv, h⟩ := h
      have hrest : ∀ rf2 ∈ tail, rf2.name ≠ rf.name := by
        intro rf2 h2 he
        exact hhead (he ▸ List.mem_map_of_mem SFieldG.name h2)
      obtain ⟨h1, h2⟩ := defaultsPass_preserves tail _ _ _ _ rf.name h hrest
      refine ⟨by rw [h1, aget_aset_self], dv, hdv, by rw [h2, aget_aset_self]⟩
    · have hne : rf0.name ≠ rf.name := by
        intro he
        exact hhead (he ▸ List.mem_map_of_mem SFieldG.name htail)
      unfold defaultsPass at h
      split at h
      · refine ih _ _ _ _ rf h htail hnod' ?_
        rw [ahas_eq_isSome, aget_adel_ne _ _ _ (fun e => hne e.symm),
          ← ahas_eq_isSome]
        exact h0
      · rw [bind_eq_ok] at h
        obtain ⟨dv, hdv, h⟩ := h
        refine ih _ _ _ _ rf h htail hnod' ?_
        rw [ahas_eq_isSome, aget_aset_ne _ _ _ _ (fun e => hne e.symm),
          ← ahas_eq_isSome]
        exact h0

/-- C5 amended: a reader field with no writer counterpart and no
default does not fail compilation with a `MissingField` error — no such
error exists.  Whenever record compilation succeeds, such a field joins
the default plan with its nil raw default and the invalid zero
`reflect.Value` as its converted default, so the compiled projector is
usable and decodes the field to the nil value (the struct-targeted
path would panic setting the zero value). -/
theorem record_missing_default_is_nil :
    ∀ fuel rns rn rfields wns wn wfields entries uw di rf,
      newProjection (fuel + 1) (.recordS rns rn rfields) (.recordS wns wn wfields) =
        .ok (.recordP entries uw di) →
      rf ∈ rfields →
      (rfields.map SFieldG.name).Nodup →
      (∀ e ∈ entries, e.1 ≠ rf.name) →
      rf.fdefault = none →
      aget uw rf.name = some none ∧ aget di rf.name = some .invalid := by
  intro fuel rns rn rfields wns wn wfields entries uw di rf h hmem hnod hent hdef
  rw [newProjection_record_record] at h
  rw [bind_eq_ok] at h
  obtain ⟨entries0, hmc, h⟩ := h
  rw [bind_eq_ok] at h
  obtain ⟨pair, hdp, h⟩ := h
  obtain ⟨uw0, di0⟩ := pair
  simp only [pure, Except.pure, Except.ok.injEq, Proj.recordP.injEq] at h
  obtain ⟨he, hu, hd⟩ := h
  subst he; subst hu; subst hd
  have hmarks : ahas (matchedMarks entries0) rf.name = false := by
    by_contra hc
    have := ahas_matchedMarks entries0 [] rf.name (by
      revert hc
      unfold matchedMarks
      cases ahas (List.foldl
        (fun m e => if e.1 = "" then m else aset m e.1 DVal.invalid) [] entries0)
        rf.name <;> simp)
    rcases this with h1 | ⟨e, hein, hek⟩
    · simp [ahas] at h1
    · exact hent e hein hek
  obtain ⟨h1, dv, hdv, h2⟩ :=
    defaultsPass_unmatched rfields [] (matchedMarks entries0) uw0 di0 rf hdp hmem hnod hmarks
  rw [hdef] at h1 hdv
  rw [convertDefault_none rf.ftype dv hdv] at h2
  exact ⟨h1, h2⟩

/-- C5 amended witness: the concrete reader `{a:int}` (no default)
against writer `{b:int}`: field "a" ends in the default plan with nil
raw default and the invalid converted default. -/
theorem record_missing_default_is_nil_witness :
    aget [("a", (none : Option Jv))] "a" = some none ∧
    aget [("a", DVal.invalid)] "a" = some .invalid :=
  record_missing_default_is_nil 1 "" "R" [⟨"a", [], .intS, none⟩] "" "W"
    [⟨"b", [], .intS, none⟩] [("", .intP)] [("a", none)] [("a", .invalid)]
    ⟨"a", [], .intS, none⟩ rfl (by simp) (by simp)
    (by intro e he; simp at he; simp [he]) rfl

/-- A successful run of the writer-field loop decomposes, past the
accumulator, into a sequential `FieldPhase` over the entries. -/
theorem unwrapEntries_fieldPhase (fuel : Nat) :
    ∀ (entries : List (String × Proj)) (record : List (String × Value))
      (evsAcc : List Ev) (s : List Nat) record' evs' s',
      unwrapEntries (fun c s0 => unwrapP fuel c s0) entries record evsAcc s =
        .ok record' evs' s' →
      ∃ evsF, evs' = evsAcc ++ evsF ∧ FieldPhase fuel entries s evsF s' := by
  intro entries
  induction entries with
  | nil =>
    intro record evsAcc s record' evs' s' h
    cases h
    exact ⟨[], by simp, .nil s⟩
  | cons e rest ih =>
    intro record evsAcc s record' evs' s' h
    obtain ⟨name, p⟩ := e
    unfold unwrapEntries at h
    split at h
    case h_1 => cases h
    case h_2 => cases h
    case h_3 v cevs s1 hc =>
      split at h
      case isTrue hv =>
        obtain ⟨evsF0, he, hp⟩ := ih _ _ _ _ _ _ h
        exact ⟨.read name :: (cevs ++ evsF0), by simp [he],
          .consSkip name p rest s v cevs s1 evsF0 s' hc (.inl hv) hp⟩
      case isFalse hv =>
        split at h
        case isTrue hn =>
          obtain ⟨evsF0, he, hp⟩ := ih _ _ _ _ _ _ h
          exact ⟨.read name :: (cevs ++ evsF0), by simp [he],
            .consSkip name p rest s v cevs s1 evsF0 s' hc (.inr hn) hp⟩
        case isFalse hn =>
          obtain ⟨evsF0, he, hp⟩ := ih _ _ _ _ _ _ h
          refine ⟨.read name :: (cevs ++ .setW name v :: evsF0), by simp [he],
            .consSet name p rest s v cevs s1 evsF0 s' hc ?_ hn hp⟩
          simpa using hv

/-- C6: a successful record `Unwrap` decomposes into the sequential
`FieldPhase` — the writer fields decoded strictly in writer-declared
order, threading the stream — followed by exactly the default-plan
`setD` writes, which therefore happen only after every writer field of
the record has been consumed. -/
theorem record_decode_order_defaults_last :
    ∀ fuel entries uw di s v evs rest,
      unwrapP (fuel + 1) (.recordP entries uw di) s = .ok v evs rest →
      ∃ evsF, FieldPhase fuel entries s evsF rest ∧
        evs = evsF ++ (if di.isEmpty then [] else uw.map (fun d => Ev.setD d.1)) := by
  intro fuel entries uw di s v evs rest h
  simp only [unwrapP] at h
  split at h
  case h_1 => cases h
  case h_2 => cases h
  case h_3 record evs0 s1 hloop =>
    obtain ⟨evsF, he, hp⟩ :=
      unwrapEntries_fieldPhase fuel entries [] [] s record evs0 s1 hloop
    split at h
    case isTrue hdi =>
      cases h
      exact ⟨evsF, hp, by simp [hdi, he]⟩
    case isFalse hdi =>
      cases h
      exact ⟨evsF, hp, by simp [hdi, he]⟩

/-- C6 witness: one matched writer field and one defaulted reader
field: the trace is the field phase followed by the default write. -/
theorem record_decode_order_defaults_last_witness :
    ∃ evsF, FieldPhase 1 [("a", .intP)] (writeInt 5) evsF [] ∧
      [Ev.read "a", Ev.setW "a" (.intV 5), Ev.setD "z"] =
        evsF ++ (if ([("z", DVal.ofJson (.num 1))] : List (String × DVal)).isEmpty
          then [] else [("z", some (Jv.num 1))].map (fun d => Ev.setD d.1)) :=
  record_decode_order_defaults_last 1 [("a", .intP)] [("z", some (.num 1))]
    [("z", .ofJson (.num 1))] (writeInt 5)
    (.recV [("a", .intV 5), ("z", .jsonV (.num 1))])
    [.read "a", .setW "a" (.intV 5), .setD "z"] [] rfl

/-- The writer-field loop only emits `setW` events for non-nil decoded
values, given that the per-field evaluator does.  The accumulator
hypothesis carries the invariant through the fold. -/
theorem unwrapEntries_setW_nonnull
    (child : Proj → List Nat → RunRes Value)
    (hchild : ∀ p s v cevs s', child p s = .ok v cevs s' →
      ∀ n val, Ev.setW n val ∈ cevs → val ≠ .nullV) :
    ∀ (entries : List (String × Proj)) record evsAcc s record' evs' s',
      (∀ n val, Ev.setW n val ∈ evsAcc → val ≠ .nullV) →
      unwrapEntries child entries record evsAcc s = .ok record' evs' s' →
      ∀ n val, Ev.setW n val ∈ evs' → val ≠ .nullV := by
  intro entries
  induction entries with
  | nil =>
    intro record evsAcc s record' evs' s' hacc h
    cases h
    exact hacc
  | cons e rest ih =>
    intro record evsAcc s record' evs' s' hacc h
    obtain ⟨name, p⟩ := e
    unfold unwrapEntries at h
    split at h
    case h_1 => cases h
    case h_2 => cases h
    case h_3 v cevs s1 hc =>
      have hcevs := hchild p s v cevs s1 hc
      split at h
      case isTrue hv =>
        refine ih _ _ _ _ _ _ ?_ h
        intro n val hmem
        rcases List.mem_append.mp hmem with hm | hm
        · exact hacc n val hm
        · rcases List.mem_cons.mp hm with hm1 | hm1
          · cases hm1
          · exact hcevs n val hm1
      case isFalse hv =>
        split at h
        case isTrue hn =>
          refine ih _ _ _ _ _ _ ?_ h
          intro n val hmem
          rcases List.mem_append.mp hmem with hm | hm
          · exact hacc n val hm
          · rcases List.mem_cons.mp hm with hm1 | hm1
            · cases hm1
            · exact hcevs n val hm1
        case isFalse hn =>
          refine ih _ _ _ _ _ _ ?_ h
          intro n val hmem
          rcases List.mem_append.mp hmem with hm | hm
          · exact hacc n val hm
          · rcases List.mem_cons.mp hm with hm1 | hm1
            · cases hm1
            · rcases List.mem_append.mp hm1 with hm2 | hm2
              · exact hcevs n val hm2
              · rcases List.mem_cons.mp hm2 with hm3 | hm3
                · cases hm3
                  intro habs
                  subst habs
                  revert hv
                  simp
                · cases hm3

/-- C9: in every successful projector run, a `record.Set` with a
decoded writer value (`setW` event) only ever carries a non-nil value:
a writer field whose decoded datum is null is never written into the
generic record, so its mapped field stays absent rather than becoming
an explicit null entry. -/
theorem decoded_null_never_set :
    ∀ fuel p s v evs rest, unwrapP fuel p s = .ok v evs rest →
      ∀ n val, Ev.setW n val ∈ evs → val ≠ .nullV := by
  intro fuel
  induction fuel with
  | zero => intro p s v evs rest h; cases h
  | succ fuel ih =>
    intro p s v evs rest h
    cases p <;> simp only [unwrapP] at h
    case nullP =>
      cases h
      intro n val hmem
      cases hmem
    case recordP entries uw di =>
      split at h
      case h_1 => cases h
      case h_2 => cases h
      case h_3 record evs0 s1 hloop =>
        have hweak : ∀ n val, Ev.setW n val ∈ evs0 → val ≠ .nullV := by
          refine unwrapEntries_setW_nonnull _ ?_ entries [] [] s record evs0 s1 ?_ hloop
          · intro p0 s0 v0 cevs0 s0' hc0
            exact ih p0 s0 v0 cevs0 s0' hc0
          · intro n val hmem
            cases hmem
        split at h
        case isTrue hdi =>
          cases h
          exact hweak
        case isFalse hdi =>
          cases h
          intro n val hmem
          rcases List.mem_append.mp hmem with hm | hm
          · exact hweak n val hm
          · obtain ⟨d, hd, habs⟩ := List.mem_map.mp hm
            cases habs
    case unionP variants =>
      split at h
      case h_1 => cases h
      case h_2 tag s' hread =>
        split at h
        case isTrue => cases h
        case isFalse =>
          split at h
          case h_1 vp hv => exact ih vp s' v evs rest h
          case h_2 => cases h
          case h_3 => cases h
    all_goals
      split at h <;> cases h <;> intro n val hmem <;> cases hmem

/-- C9 witness: decoding the null branch of a nullable field leaves the
record without the field — in particular no `setW` of a null value
appears in the trace. -/
theorem decoded_null_never_set_witness :
    Ev.setW "a" Value.nullV ∉ ([Ev.read "a"] : List Ev) := fun hmem =>
  decoded_null_never_set 9
    (.recordP [("a", .unionP [some .nullP, some .boolP])] [] []) [0]
    (.recV []) [.read "a"] [] rfl "a" .nullV hmem rfl

/-- C10: on the struct-targeted projection path, a writer field whose
mapped reader name resolves to no target field — neither exactly nor
with its first letter uppercased — is decoded purely to advance the
stream: the loop continues with the remaining fields from the advanced
stream whether that decode returned an error (the error is discarded)
or a value (the value is discarded), so the projection can return
success even though that read failed. -/
theorem struct_unmatched_field_read_discarded :
    ∀ (cp : Proj → Tgt → List Nat → RunRes Tgt)
      (cu : Proj → List Nat → RunRes Value)
      (name : String) (p : Proj) (rest : List (String × Proj))
      (tflds : List (String × Tgt)) (s : List Nat),
      findStructKey tflds name = none →
      (∀ msg s2, cu p s = .fail msg s2 →
        projectEntriesStruct cp cu ((name, p) :: rest) tflds s =
          projectEntriesStruct cp cu rest tflds s2) ∧
      (∀ v cevs s2, cu p s = .ok v cevs s2 →
        projectEntriesStruct cp cu ((name, p) :: rest) tflds s =
          projectEntriesStruct cp cu rest tflds s2) := by
  intro cp cu name p rest tflds s hfind
  constructor
  · intro msg s2 hcu
    conv_lhs => rw [projectEntriesStruct]
    rw [hfind, hcu]
  · intro v cevs s2 hcu
    conv_lhs => rw [projectEntriesStruct]
    rw [hfind, hcu]

/-- C10 witness: writer `{a:int, b:int}` projected into a struct target
that only has field `A`: field "a" is stored via the title-cased
lookup, the read of field "b" fails on the truncated stream `[128]`,
the failure is discarded, and the full projection still returns
success. -/
theorem struct_unmatched_field_read_discarded_witness :
    findStructKey [("A", Tgt.prim none)] "b" = none ∧
    unwrapP 2 .intP [128] = .fail "unexpected EOF" [] ∧
    projectEntriesStruct (fun c t s0 => projectP 2 c t s0)
        (fun c s0 => unwrapP 2 c s0) [("b", .intP)]
        [("A", .prim (some (.intV 7)))] [128] =
      projectEntriesStruct (fun c t s0 => projectP 2 c t s0)
        (fun c s0 => unwrapP 2 c s0) [] [("A", .prim (some (.intV 7)))] [] ∧
    projectP 3 (.recordP [("a", .intP), ("b", .intP)] [] [])
        (.structRec [("A", .prim none)]) (writeInt 7 ++ [128]) =
      .ok (.structRec [("A", .prim (some (.intV 7)))]) [] [] :=
  ⟨rfl, rfl,
    (struct_unmatched_field_read_discarded (fun c t s0 => projectP 2 c t s0)
      (fun c s0 => unwrapP 2 c s0) "b" .intP []
      [("A", .prim (some (.intV 7)))] [128] rfl).1 "unexpected EOF" [] rfl,
    rfl⟩

end Avro
